import Mathlib

/-!
Verification of the DRTP file-transfer program (src/application.py) against its
natural-language specification.  The protocol engine is shallowly embedded:
bytes are lists of naturals, the receiver loop and the sender's Go-Back-N loop
become explicit state-passing step functions, and blocking channel operations
become explicit event inputs (a received datagram, or a timeout).  The
definitions below are translated from the source; ghost history fields (logs
of emitted packets, accepted writes, acknowledged sequence numbers) record
events without influencing behaviour.
-/

namespace DRTP

/-- SYN flag bit, 0b1000, from the source constant syn_flag. -/
def syn_flag : Nat := 8

/-- ACK flag bit, 0b0100, from the source constant ack_flag. -/
def ack_flag : Nat := 4

/-- FIN flag bit, 0b0010, from the source constant fin_flag. -/
def fin_flag : Nat := 2

/-- Payload capacity of one segment, from the source constant packet_data_size. -/
def packet_data_size : Nat := 994

/-- Embedding of pack_header: struct.pack with format !HHH, three 16-bit
unsigned fields in network byte order (big-endian per field).  Bytes are
naturals below 256; inputs are assumed within 16-bit range as in every call
site of the program (struct.error on out-of-range values is not modelled). -/
def pack_header (seq ack flags : Nat) : List Nat :=
  [seq / 256 % 256, seq % 256, ack / 256 % 256, ack % 256, flags / 256 % 256, flags % 256]

/-- Embedding of unpack_header: struct.unpack with format !HHH demands exactly
6 bytes and raises struct.error otherwise; failure is modelled as none. -/
def unpack_header (bs : List Nat) : Option (Nat × Nat × Nat) :=
  match bs with
  | [b0, b1, b2, b3, b4, b5] => some (b0 * 256 + b1, b2 * 256 + b3, b4 * 256 + b5)
  | _ => none

/-- One incoming datagram as seen by the receiver loop: the decoded sequence
number and flags of its header, and its payload bytes (packet[6:]). -/
structure Seg where
  seq : Nat
  flags : Nat
  payload : List Nat
deriving DecidableEq

/-- State of the receiver's data-transfer loop in receive_file, with ghost
history fields: out is the byte stream written to the output sink, written
records the accepted (sequence, payload) pairs in acceptance order, acksSent
records every acknowledgment emitted as the (seq, ack) pair put in its header,
and discarded counts uses of the discard-once test hook.  discard = none
models the float inf sentinel, which no integer sequence number equals. -/
structure RState where
  ack : Nat
  discard : Option Nat
  fileName : Option (List Nat)
  out : List Nat
  written : List (Nat × List Nat)
  acksSent : List (Nat × Nat)
  discarded : Nat
  fin : Bool
deriving DecidableEq

/-- One iteration of the receiver's while-loop body (receive_file, lines
142-187), in source order: the discard-once test hook, then the FIN check,
then the sequence-1 name segment branch, then the in-order accept branch,
else the out-of-order silent drop.  After FIN the loop has exited, modelled
as the state being frozen. -/
def recvStep (s : RState) (g : Seg) : RState :=
  if s.fin = true then s
  else if s.discard = some g.seq then
    { s with discard := none, discarded := s.discarded + 1 }
  else if g.flags &&& fin_flag ≠ 0 then
    { s with fin := true }
  else if g.seq = 1 then
    { s with fileName := some g.payload,
             acksSent := s.acksSent ++ [(g.seq, s.ack)],
             ack := s.ack + 1 }
  else if g.seq = s.ack then
    { s with acksSent := s.acksSent ++ [(g.seq, s.ack)],
             out := s.out ++ g.payload,
             written := s.written ++ [(g.seq, g.payload)],
             ack := s.ack + 1 }
  else s

/-- Receiver state on entering the data-transfer loop: ack = 1, empty output,
configured discard-once value d. -/
def initR (d : Option Nat) : RState :=
  { ack := 1, discard := d, fileName := none, out := [], written := [],
    acksSent := [], discarded := 0, fin := false }

/-- The receiver loop over a list of delivered segments. -/
def recvRun (s : RState) (gs : List Seg) : RState := gs.foldl recvStep s

/-- Concatenation of the payloads of a list of accepted (seq, payload) pairs. -/
def concatPayloads (l : List (Nat × List Nat)) : List Nat :=
  l.foldr (fun w acc => w.2 ++ acc) []

/-- The single FIN+ACK the receiver sends after its data loop exits
(receive_file, lines 193-196): it is straight-line code after the loop, so
exactly one FIN+ACK is sent when FIN was observed and none otherwise. -/
def receiverFinAcks (d : Option Nat) (gs : List Seg) : Nat :=
  if (recvRun (initR d) gs).fin then 1 else 0

/-- Invariant of the receiver loop tying the ghost history to the counters. -/
def RecvInv (r : RState) : Prop :=
  r.out = concatPayloads r.written ∧
  (r.written.map Prod.fst).Pairwise (· < ·) ∧
  (∀ w ∈ r.written, w.1 < r.ack) ∧
  ((r.acksSent.map Prod.snd).Pairwise (· < ·)) ∧
  (∀ p ∈ r.acksSent, p.2 < r.ack) ∧
  (∀ p ∈ r.acksSent, p.1 ≠ 1 → p.1 = p.2) ∧
  (∀ d, r.discard = some d → r.discarded = 0) ∧
  r.discarded ≤ 1

/-- Concrete receiver state used to instantiate the C1 theorem. -/
def c1wS : RState :=
  { ack := 2, discard := none, fileName := some [65], out := [],
    written := [], acksSent := [(1, 1)], discarded := 0, fin := false }

/-- Concrete in-order segment used to instantiate the C1 theorem. -/
def c1wG : Seg := { seq := 2, flags := 4, payload := [9, 9] }

/-- Concrete receiver state used to instantiate the amended C6 theorem. -/
def c6wS : RState :=
  { ack := 3, discard := none, fileName := some [65], out := [7],
    written := [(2, [7])], acksSent := [(1, 1), (2, 2)], discarded := 0, fin := false }

/-- Concrete duplicate segment used to instantiate the amended C6 theorem. -/
def c6wG : Seg := { seq := 2, flags := 4, payload := [7] }

/-- Concrete receiver state used to instantiate the C9 theorem. -/
def c9wS : RState :=
  { ack := 2, discard := some 2, fileName := some [65], out := [],
    written := [], acksSent := [(1, 1)], discarded := 0, fin := false }

/-- Concrete to-be-discarded segment used to instantiate the C9 theorem. -/
def c9wG : Seg := { seq := 2, flags := 4, payload := [7] }

/-- Control position of the sender inside its data-transfer loop: at the top
of the for-loop over chunks (ready), or inside the drain while-loop
(draining). -/
inductive Phase
  | ready
  | draining
deriving DecidableEq

/-- One observable event at the sender's blocking receive inside the drain
loop: an arriving 6-byte acknowledgment datagram carrying (seq, ack, flags),
or the 500 ms socket timeout. -/
inductive Ev
  | ackEv (q a f : Nat)
  | tmo
deriving DecidableEq

/-- State of the sender's data-transfer loop in send_file: seq is the next
sequence number to assign, window the sliding-window list window_size, dict
the packet store packet_dict as an association list in insertion order.
Ghost fields: base counts acknowledgments (next unacknowledged sequence
number under the window invariant), fresh lists the sequence numbers sent as
fresh transmissions, acked the acknowledged ones, log every data-bearing
datagram handed to the socket in order (fresh sends and retransmissions). -/
structure SState where
  phase : Phase
  seq : Nat
  window : List Nat
  dict : List (Nat × List Nat)
  base : Nat
  fresh : List Nat
  acked : List Nat
  log : List (List Nat)
deriving DecidableEq

/-- Python dict lookup packet_dict[k] on an association list (keys are unique
in every reachable state, as the proofs show). -/
def dictLookup (k : Nat) : List (Nat × List Nat) → Option (List Nat)
  | [] => none
  | kv :: d => if kv.1 = k then some kv.2 else dictLookup k d

/-- Python dict removal packet_dict.pop(a). -/
def dictErase (a : Nat) (d : List (Nat × List Nat)) : List (Nat × List Nat) :=
  d.filter fun kv => decide (kv.1 ≠ a)

/-- The exact bytes packed for sequence number k: pack_header(k, 0, ack_flag)
plus the payload for k (the file name for k = 1, the chunk otherwise), as in
send_file lines 283 and 299. -/
def originalPacket (payload : Nat → List Nat) (k : Nat) : List Nat :=
  pack_header k 0 ack_flag ++ payload k

/-- Sender state after the pre-loop name-segment transmission (send_file,
lines 267-291): seq advanced to 2, the name segment (sequence 1) sent,
recorded in the packet store and appended to the window. -/
def initS (payload : Nat → List Nat) : SState :=
  { phase := Phase.ready, seq := 2, window := [1],
    dict := [(1, originalPacket payload 1)], base := 1,
    fresh := [1], acked := [], log := [originalPacket payload 1] }

/-- Body of the for-loop over chunks before the drain loop (send_file, lines
294-306): admit seq into the window only if the window is not full, then
build, store and transmit the packet for seq.  Python's dict assignment
always creates a fresh key here because seq strictly increases, so it is
modelled as an append. -/
def chunkStep (W : Nat) (payload : Nat → List Nat) (s : SState) : SState :=
  { s with phase := Phase.draining,
           window := if s.window.length < W then s.window ++ [s.seq] else s.window,
           dict := s.dict ++ [(s.seq, originalPacket payload s.seq)],
           fresh := s.fresh ++ [s.seq],
           log := s.log ++ [originalPacket payload s.seq] }

/-- Condition of the drain while-loop (send_file, line 311): window full, or
on the last chunk (seq - 1 = last_loop) window still non-empty; Python
precedence makes it A or (B and C). -/
def drainCond (W last : Nat) (s : SState) : Bool :=
  s.window.length == W || (s.seq - 1 == last && s.window.length != 0)

/-- One iteration of the drain loop body (send_file, lines 313-353), given
the event at the blocking receive.  A matching acknowledgment (seq = ack =
window head) pops the head from window and packet store; an ACK-flagged
mismatch raises ValueError, handled like the timeout by retransmitting, in
window order, the stored bytes of every window entry; a datagram without the
ACK flag does nothing.  ConnectionResetError aborts the process and is not
modelled.  Returns the new state and the retransmitted datagrams. -/
def drainStep (s : SState) (e : Ev) : SState × List (List Nat) :=
  match e with
  | Ev.tmo =>
      let retx := s.window.filterMap fun k => dictLookup k s.dict
      ({ s with log := s.log ++ retx }, retx)
  | Ev.ackEv q a f =>
      if f &&& ack_flag ≠ 0 then
        if q = a ∧ s.window.head? = some a then
          ({ s with window := s.window.tail, dict := dictErase a s.dict,
                    base := s.base + 1, acked := s.acked ++ [a] }, [])
        else
          let retx := s.window.filterMap fun k => dictLookup k s.dict
          ({ s with log := s.log ++ retx }, retx)
      else (s, [])

/-- Exit of the drain loop back to the top of the for-loop (send_file, line
356): seq += 1. -/
def exitDrain (s : SState) : SState :=
  { s with phase := Phase.ready, seq := s.seq + 1 }

/-- The highest sequence number transmitted fresh so far, plus one: equals
seq at the top of the for-loop and seq + 1 inside the drain loop. -/
def nextSeq (s : SState) : Nat :=
  match s.phase with
  | Phase.ready => s.seq
  | Phase.draining => s.seq + 1

/-- Reachable states of the sender's data-transfer loop for window size W,
last chunk index last (last_loop in the source) and per-sequence payloads:
the loop alternates chunk transmission, drain iterations while the drain
condition holds (with an arbitrary event at each blocking receive), and
drain exit when it fails. -/
inductive Reachable (W last : Nat) (payload : Nat → List Nat) : SState → Prop
  | init : Reachable W last payload (initS payload)
  | chunk {s : SState} : Reachable W last payload s → s.phase = Phase.ready →
      s.seq ≤ last + 1 → Reachable W last payload (chunkStep W payload s)
  | drain {s : SState} (e : Ev) : Reachable W last payload s →
      s.phase = Phase.draining → drainCond W last s = true →
      Reachable W last payload (drainStep s e).1
  | exitStep {s : SState} : Reachable W last payload s →
      s.phase = Phase.draining → drainCond W last s = false →
      Reachable W last payload (exitDrain s)

/-- Core safety invariant of the sender loop: the window is strictly
increasing, window and packet-store keys are bounded by the transmission
frontier, and every window entry maps in the packet store to the exact bytes
originally packed for it. -/
def WindowDictInv (payload : Nat → List Nat) (s : SState) : Prop :=
  s.window.Pairwise (· < ·) ∧
  (∀ k ∈ s.window, k < nextSeq s) ∧
  (∀ kv ∈ s.dict, kv.1 < nextSeq s) ∧
  (∀ k ∈ s.window, dictLookup k s.dict = some (originalPacket payload k))

/-- The contiguous increasing range from b of length n. -/
def seqRange : Nat → Nat → List Nat
  | _, 0 => []
  | b, n + 1 => b :: seqRange (b + 1) n

/-- Window-shape invariant for window sizes of at least 2: the window is the
contiguous range from base (the oldest unacknowledged sequence number) up to
the transmission frontier, bounded by W, strictly below W at the top of the
for-loop; fresh and acked are the corresponding prefix ranges. -/
def GhostInv (W : Nat) (s : SState) : Prop :=
  1 ≤ s.base ∧ s.base ≤ nextSeq s ∧
  s.window = seqRange s.base (nextSeq s - s.base) ∧
  nextSeq s - s.base ≤ W ∧
  (s.phase = Phase.ready → nextSeq s - s.base < W) ∧
  s.fresh = seqRange 1 (nextSeq s - 1) ∧
  s.acked = seqRange 1 (s.base - 1)

/-- Payload map for the concrete three-chunk scenario: file name [65] on
sequence 1, chunks [10], [20], [30] on sequences 2, 3, 4. -/
def pay3 : Nat → List Nat := fun k =>
  if k = 1 then [65] else if k = 2 then [10] else if k = 3 then [20]
  else if k = 4 then [30] else []

/-- Sender state with window size 1 right after transmitting the first chunk
(sequence 2): the window is still [1] because it was full, yet sequence 2 is
in flight. -/
def sentW1 : SState := chunkStep 1 pay3 (initS pay3)

/-- Decoding of a 6-byte acknowledgment datagram into a sender event. -/
def cliEvOf (bs : List Nat) : Ev :=
  match unpack_header bs with
  | some (q, a, f) => Ev.ackEv q a f
  | none => Ev.ackEv 0 0 0

/-- The receiver consuming one datagram from the wire: decode the first 6
bytes as the header, run one loop iteration, and emit the acknowledgment
datagrams produced by that iteration (packed with the ACK flag, as
send_ack_packet does). -/
def srvConsume (r : RState) (pkt : List Nat) : RState × List (List Nat) :=
  match unpack_header (pkt.take 6) with
  | some (q, _, f) =>
      let r2 := recvStep r { seq := q, flags := f, payload := pkt.drop 6 }
      (r2, (r2.acksSent.drop r.acksSent.length).map fun p => pack_header p.1 p.2 ack_flag)
  | none => (r, [])

/-- Closed-loop execution of sender and receiver over a lossless FIFO channel
in both directions.  Both machines are deterministic functions of their input
streams, so the transcript is the unique fixed point; it is computed
demand-driven: the sender runs until it blocks on an acknowledgment, then the
earliest undelivered acknowledgment is delivered if one exists, else the
receiver consumes the earliest undelivered data datagram; a timeout fires
only if no datagram is in flight in either direction. -/
def sim (W last : Nat) (payload : Nat → List Nat) :
    Nat → SState → RState → List (List Nat) → List (List Nat) → SState × RState
  | 0, c, r, _, _ => (c, r)
  | fuel + 1, c, r, qcs, qsc =>
    match c.phase with
    | Phase.ready =>
        if c.seq ≤ last + 1 then
          sim W last payload fuel (chunkStep W payload c) r
            (qcs ++ [originalPacket payload c.seq]) qsc
        else (c, r)
    | Phase.draining =>
        if drainCond W last c then
          match qsc with
          | b :: qsc2 =>
              let p := drainStep c (cliEvOf b)
              sim W last payload fuel p.1 r (qcs ++ p.2) qsc2
          | [] =>
              match qcs with
              | p :: qcs2 =>
                  let q := srvConsume r p
                  sim W last payload fuel c q.1 qcs2 q.2
              | [] =>
                  let p := drainStep c Ev.tmo
                  sim W last payload fuel p.1 r p.2 []
        else sim W last payload fuel (exitDrain c) r qcs qsc

/-- Scenario A of the specification executed in closed loop: window size 1,
lossless channel, the three-chunk file of pay3 (last_loop = 3), starting
right after the name segment (sequence 1) was sent. -/
def simA : SState × RState :=
  sim 1 3 pay3 30 (initS pay3) (initR none) [originalPacket pay3 1] []

/-- Outcome of the sender's handshake attempt (send_file, lines 236-264): the
one SYN is sent; on timeout or connection reset the program exits fatally
without retrying; on a SYN+ACK reply the final ACK is sent and the transfer
is established; a reply without both flags falls through the establishment
check and nothing further happens. -/
inductive HsEvent
  | reply (q a f : Nat)
  | tmo
  | reset
deriving DecidableEq

/-- The SYN datagram pack_header(0, 0, syn_flag). -/
def synPkt : List Nat := pack_header 0 0 syn_flag

/-- The handshake-completing ACK datagram pack_header(0, 0, ack_flag). -/
def hsAckPkt : List Nat := pack_header 0 0 ack_flag

/-- Sender handshake: the control datagrams sent during the handshake phase
and whether the connection was established (data transfer entered). -/
def senderHandshake : HsEvent → List (List Nat) × Bool
  | HsEvent.tmo => ([synPkt], false)
  | HsEvent.reset => ([synPkt], false)
  | HsEvent.reply _ _ f =>
      if f &&& syn_flag ≠ 0 ∧ f &&& ack_flag ≠ 0 then ([synPkt, hsAckPkt], true)
      else ([synPkt], false)

/-- All datagrams sent by send_file up to the end of the data-transfer phase:
the handshake datagrams, then — only if established — the data transcript of
the closed-loop run. -/
def sendFileSegs (e : HsEvent) (W last : Nat) (payload : Nat → List Nat) (fuel : Nat) :
    List (List Nat) :=
  let hs := senderHandshake e
  if hs.2 then
    hs.1 ++ (sim W last payload fuel (initS payload) (initR none)
      [originalPacket payload 1] []).1.log
  else hs.1

/-- One observable event at the sender's blocking receive inside the teardown
loop: an arriving datagram with the given flags, or the 500 ms timeout. -/
inductive TdEv
  | tmo
  | pkt (f : Nat)
deriving DecidableEq

/-- The sender's teardown loop (send_file, lines 362-381): send FIN, wait;
on timeout resend FIN; on a datagram without both FIN and ACK flags loop
(resending FIN); on a FIN+ACK close.  Returns the number of FIN transmissions
and whether the loop closed; an exhausted event list means the sender is
still blocked waiting. -/
def teardownRun : Nat → List TdEv → Nat × Bool
  | fins, [] => (fins + 1, false)
  | fins, TdEv.tmo :: es => teardownRun (fins + 1) es
  | fins, TdEv.pkt f :: es =>
      if f &&& fin_flag ≠ 0 ∧ f &&& ack_flag ≠ 0 then (fins + 1, true)
      else teardownRun (fins + 1) es

theorem concatPayloads_append (l1 l2 : List (Nat × List Nat)) :
    concatPayloads (l1 ++ l2) = concatPayloads l1 ++ concatPayloads l2 := by
  induction l1 with
  | nil => simp [concatPayloads]
  | cons w l ih => simp [concatPayloads] at ih ⊢; simp [ih]

theorem recvStep_inv (r : RState) (g : Seg) (h : RecvInv r) : RecvInv (recvStep r g) := by
  obtain ⟨h1, h2, h3, h4, h5, h6, h7, h8⟩ := h
  unfold recvStep
  split_ifs with hf hd hfin hone hacc
  · exact ⟨h1, h2, h3, h4, h5, h6, h7, h8⟩
  · refine ⟨h1, h2, h3, h4, h5, h6, ?_, ?_⟩
    · intro d hd2; simp at hd2
    · show r.discarded + 1 ≤ 1
      have := h7 g.seq hd; omega
  · exact ⟨h1, h2, h3, h4, h5, h6, h7, h8⟩
  · refine ⟨h1, h2, ?_, ?_, ?_, ?_, h7, h8⟩
    · intro w hw; have := h3 w hw; simp; omega
    · simp only [List.map_append, List.pairwise_append]
      refine ⟨h4, by simp, ?_⟩
      intro a ha b hb
      simp at hb
      rcases List.mem_map.mp ha with ⟨p, hp, hpa⟩
      subst hb; rw [← hpa]; exact h5 p hp
    · intro p hp
      rcases List.mem_append.mp hp with hp | hp
      · have := h5 p hp; simp; omega
      · simp at hp; subst hp; simp
    · intro p hp
      rcases List.mem_append.mp hp with hp | hp
      · exact h6 p hp
      · simp at hp; subst hp; intro hne; simp [hone] at hne
  · refine ⟨?_, ?_, ?_, ?_, ?_, ?_, h7, h8⟩
    · simp only [concatPayloads_append, h1]; simp [concatPayloads]
    · simp only [List.map_append, List.pairwise_append]
      refine ⟨h2, by simp, ?_⟩
      intro a ha b hb
      simp at hb
      rcases List.mem_map.mp ha with ⟨w, hw, hwa⟩
      subst hb; rw [← hwa, hacc]; exact h3 w hw
    · intro w hw
      rcases List.mem_append.mp hw with hw | hw
      · have := h3 w hw; simp; omega
      · simp at hw; subst hw
        show g.seq < r.ack + 1
        omega
    · simp only [List.map_append, List.pairwise_append]
      refine ⟨h4, by simp, ?_⟩
      intro a ha b hb
      simp at hb
      rcases List.mem_map.mp ha with ⟨p, hp, hpa⟩
      subst hb; rw [← hpa]; exact h5 p hp
    · intro p hp
      rcases List.mem_append.mp hp with hp | hp
      · have := h5 p hp; simp; omega
      · simp at hp; subst hp; simp
    · intro p hp
      rcases List.mem_append.mp hp with hp | hp
      · exact h6 p hp
      · simp at hp; subst hp; intro _; simp [hacc]
  · exact ⟨h1, h2, h3, h4, h5, h6, h7, h8⟩

theorem recvRun_inv (gs : List Seg) : ∀ r : RState, RecvInv r → RecvInv (recvRun r gs) := by
  induction gs with
  | nil => intro r h; exact h
  | cons g gs ih =>
    intro r h
    exact ih (recvStep r g) (recvStep_inv r g h)

theorem initR_inv (d : Option Nat) : RecvInv (initR d) := by
  simp [RecvInv, initR, concatPayloads]

/-- Claim C4: pack_header produces exactly 6 bytes laid out as three 16-bit
big-endian fields; unpack_header inverts it on every 16-bit triple; and
unpack_header fails detectably (returns none) on fewer than 6 bytes. -/
theorem c4_header_roundtrip (s a f : Nat) (hs : s < 65536) (ha : a < 65536) (hf : f < 65536) :
    (pack_header s a f).length = 6 ∧
    pack_header s a f = [s / 256, s % 256, a / 256, a % 256, f / 256, f % 256] ∧
    unpack_header (pack_header s a f) = some (s, a, f) ∧
    (∀ bs : List Nat, bs.length < 6 → unpack_header bs = none) := by
  refine ⟨rfl, ?_, ?_, ?_⟩
  · have e1 : s / 256 % 256 = s / 256 := by omega
    have e2 : a / 256 % 256 = a / 256 := by omega
    have e3 : f / 256 % 256 = f / 256 := by omega
    simp [pack_header, e1, e2, e3]
  · simp only [unpack_header, pack_header, Option.some.injEq, Prod.mk.injEq]
    refine ⟨by omega, by omega, by omega⟩
  · intro bs hb
    rcases bs with _ | ⟨a1, _ | ⟨a2, _ | ⟨a3, _ | ⟨a4, _ | ⟨a5, _ | ⟨a6, rest⟩⟩⟩⟩⟩⟩
    · rfl
    · rfl
    · rfl
    · rfl
    · rfl
    · rfl
    · simp only [List.length_cons] at hb; omega

theorem c4_header_roundtrip_witness :
    (pack_header 513 77 6).length = 6 ∧
    pack_header 513 77 6 = [513 / 256, 513 % 256, 77 / 256, 77 % 256, 6 / 256, 6 % 256] ∧
    unpack_header (pack_header 513 77 6) = some (513, 77, 6) ∧
    (∀ bs : List Nat, bs.length < 6 → unpack_header bs = none) :=
  c4_header_roundtrip 513 77 6 (by omega) (by omega) (by omega)

/-- Claim C1: in the receiver's data loop, a non-FIN, non-discarded segment
with sequence not 1 is either the next expected one (sequence = ack), in which
case exactly one acknowledgment is emitted, the payload is appended to the
output sink, and ack advances by exactly 1; or it changes nothing at all.
Consequently the output stream of any run is exactly the concatenation of the
accepted payloads and the accepted sequence numbers are strictly increasing,
so an out-of-order segment is never written. -/
theorem c1_in_order_delivery (s : RState) (g : Seg) (hfin : s.fin = false)
    (hfl : g.flags &&& fin_flag = 0) (hd : s.discard ≠ some g.seq) (h1 : g.seq ≠ 1) :
    (g.seq = s.ack →
      recvStep s g = { s with acksSent := s.acksSent ++ [(g.seq, s.ack)],
                              out := s.out ++ g.payload,
                              written := s.written ++ [(g.seq, g.payload)],
                              ack := s.ack + 1 }) ∧
    (g.seq ≠ s.ack → recvStep s g = s) ∧
    (∀ d gs, (recvRun (initR d) gs).out = concatPayloads (recvRun (initR d) gs).written ∧
      ((recvRun (initR d) gs).written.map Prod.fst).Pairwise (· < ·)) := by
  refine ⟨?_, ?_, ?_⟩
  · intro hacc
    unfold recvStep
    rw [if_neg (by simp [hfin]), if_neg hd, if_neg (by simp [hfl]), if_neg h1, if_pos hacc]
  · intro hne
    unfold recvStep
    rw [if_neg (by simp [hfin]), if_neg hd, if_neg (by simp [hfl]), if_neg h1, if_neg hne]
  · intro d gs
    have h := recvRun_inv gs (initR d) (initR_inv d)
    exact ⟨h.1, h.2.1⟩

theorem c1_in_order_delivery_witness :
    (c1wG.seq = c1wS.ack →
      recvStep c1wS c1wG = { c1wS with
                              acksSent := c1wS.acksSent ++ [(c1wG.seq, c1wS.ack)],
                              out := c1wS.out ++ c1wG.payload,
                              written := c1wS.written ++ [(c1wG.seq, c1wG.payload)],
                              ack := c1wS.ack + 1 }) ∧
    (c1wG.seq ≠ c1wS.ack → recvStep c1wS c1wG = c1wS) ∧
    (∀ d gs, (recvRun (initR d) gs).out = concatPayloads (recvRun (initR d) gs).written ∧
      ((recvRun (initR d) gs).written.map Prod.fst).Pairwise (· < ·)) :=
  c1_in_order_delivery c1wS c1wG rfl (by decide) (by decide) (by decide)

/-- Claim C6 counterexample: a retransmitted sequence-1 name segment arriving
after ack has advanced past 1 does elicit a further acknowledgment — the code
resends an ACK and advances ack on every sequence-1 arrival, so two deliveries
of the name segment produce two acknowledgments, refuting the claim that an
already-acknowledged segment elicits no further ACK. -/
theorem c6_counterexample :
    (recvRun (initR none) [⟨1, 4, [65]⟩, ⟨1, 4, [65]⟩]).acksSent = [(1, 1), (1, 2)] ∧
    (recvRun (initR none) [⟨1, 4, [65]⟩, ⟨1, 4, [65]⟩]).ack = 3 := by
  constructor <;> rfl

theorem acks_count_le_one (l : List (Nat × Nat)) (hp : (l.map Prod.snd).Pairwise (· < ·))
    (hq : ∀ p ∈ l, p.1 ≠ 1 → p.1 = p.2) (q : Nat) (hq1 : q ≠ 1) :
    (l.map Prod.fst).count q ≤ 1 := by
  induction l with
  | nil => simp
  | cons p l ih =>
    simp only [List.map_cons, List.pairwise_cons] at hp
    obtain ⟨hlt, hpw⟩ := hp
    by_cases hpq : p.1 = q
    · have h0 : (l.map Prod.fst).count q = 0 := by
        rw [List.count_eq_zero]
        intro hmem
        rcases List.mem_map.mp hmem with ⟨p2, hp2, hfst⟩
        have hp2q : p2.2 = q := by
          have := hq p2 (List.mem_cons_of_mem p hp2) (by rw [hfst]; exact hq1)
          rw [← this, hfst]
        have hpq2 : p.2 = q := by
          have := hq p (List.mem_cons_self p l) (by rw [hpq]; exact hq1)
          rw [← this, hpq]
        have := hlt p2.2 (List.mem_map.mpr ⟨p2, hp2, rfl⟩)
        omega
      rw [List.map_cons, List.count_cons, h0]
      simp [hpq]
    · have := ih hpw (fun p2 hp2 => hq p2 (List.mem_cons_of_mem p hp2))
      rw [List.map_cons, List.count_cons]
      simp only [beq_iff_eq, if_neg hpq, add_zero]
      exact this

/-- Claim C6 amended: the receiver emits at most one acknowledgment per
accepted in-order segment with sequence not equal to 1 — a duplicate with
sequence neither 1 nor the expected counter elicits no ACK at all, and across
any run each sequence number other than 1 is acknowledged at most once (the
emitted ack numbers are strictly increasing and equal the sequence field for
those segments).  However, every non-FIN, non-discarded arrival of a
sequence-1 segment elicits a fresh acknowledgment and advances ack, so a
retransmitted name segment does elicit a further ACK. -/
theorem c6_amended (s : RState) (g : Seg) (hfin : s.fin = false)
    (hfl : g.flags &&& fin_flag = 0) (hd : s.discard ≠ some g.seq) :
    (g.seq ≠ 1 → g.seq ≠ s.ack → recvStep s g = s) ∧
    (g.seq = 1 →
      recvStep s g = { s with fileName := some g.payload,
                              acksSent := s.acksSent ++ [(g.seq, s.ack)],
                              ack := s.ack + 1 }) ∧
    (∀ d gs,
      (((recvRun (initR d) gs).acksSent.map Prod.snd).Pairwise (· < ·)) ∧
      (∀ p ∈ (recvRun (initR d) gs).acksSent, p.1 ≠ 1 → p.1 = p.2) ∧
      (∀ q, q ≠ 1 → (((recvRun (initR d) gs).acksSent.map Prod.fst).count q ≤ 1))) := by
  refine ⟨?_, ?_, ?_⟩
  · intro h1 hne
    unfold recvStep
    rw [if_neg (by simp [hfin]), if_neg hd, if_neg (by simp [hfl]), if_neg h1, if_neg hne]
  · intro h1
    unfold recvStep
    rw [if_neg (by simp [hfin]), if_neg hd, if_neg (by simp [hfl]), if_pos h1]
  · intro d gs
    have h := recvRun_inv gs (initR d) (initR_inv d)
    refine ⟨h.2.2.2.1, h.2.2.2.2.2.1, ?_⟩
    intro q hq
    exact acks_count_le_one _ h.2.2.2.1 h.2.2.2.2.2.1 q hq

theorem c6_amended_witness :
    (c6wG.seq ≠ 1 → c6wG.seq ≠ c6wS.ack → recvStep c6wS c6wG = c6wS) ∧
    (c6wG.seq = 1 →
      recvStep c6wS c6wG = { c6wS with
                              fileName := some c6wG.payload,
                              acksSent := c6wS.acksSent ++ [(c6wG.seq, c6wS.ack)],
                              ack := c6wS.ack + 1 }) ∧
    (∀ d gs,
      (((recvRun (initR d) gs).acksSent.map Prod.snd).Pairwise (· < ·)) ∧
      (∀ p ∈ (recvRun (initR d) gs).acksSent, p.1 ≠ 1 → p.1 = p.2) ∧
      (∀ q, q ≠ 1 → (((recvRun (initR d) gs).acksSent.map Prod.fst).count q ≤ 1))) :=
  c6_amended c6wS c6wG rfl (by decide) (by decide)

/-- Claim C9: a segment whose sequence equals the configured discard-once
value is dropped silently — no acknowledgment, no output, no counter change —
and the test value is permanently cleared, so over any whole run at most one
segment is ever discarded, and once cleared the hook never fires again. -/
theorem c9_discard_once (s : RState) (g : Seg) (hfin : s.fin = false)
    (hd : s.discard = some g.seq) :
    recvStep s g = { s with discard := none, discarded := s.discarded + 1 } ∧
    (recvStep s g).acksSent = s.acksSent ∧
    (recvStep s g).out = s.out ∧
    (recvStep s g).ack = s.ack ∧
    (recvStep s g).discard = none ∧
    (∀ t : RState, t.discard = none → ∀ g2,
      (recvStep t g2).discard = none ∧ (recvStep t g2).discarded = t.discarded) ∧
    (∀ d gs, (recvRun (initR d) gs).discarded ≤ 1) := by
  have hstep : recvStep s g = { s with discard := none, discarded := s.discarded + 1 } := by
    unfold recvStep
    rw [if_neg (by simp [hfin]), if_pos hd]
  refine ⟨hstep, by rw [hstep], by rw [hstep], by rw [hstep], by rw [hstep], ?_, ?_⟩
  · intro t ht g2
    unfold recvStep
    split_ifs with hf hd2 hfin2 hone hacc <;> simp_all
  · intro d gs
    exact (recvRun_inv gs (initR d) (initR_inv d)).2.2.2.2.2.2.2

theorem seqRange_length (n : Nat) : ∀ b, (seqRange b n).length = n := by
  induction n with
  | zero => intro b; rfl
  | succ n ih => intro b; simp [seqRange, ih]

theorem seqRange_concat (n : Nat) : ∀ b, seqRange b (n + 1) = seqRange b n ++ [b + n] := by
  induction n with
  | zero => intro b; simp [seqRange]
  | succ n ih =>
    intro b
    show b :: seqRange (b + 1) (n + 1) = (b :: seqRange (b + 1) n) ++ [b + (n + 1)]
    rw [ih (b + 1)]
    have hadd : b + 1 + n = b + (n + 1) := by omega
    rw [hadd]
    simp

theorem mem_seqRange (x : Nat) : ∀ n b, x ∈ seqRange b n ↔ b ≤ x ∧ x < b + n := by
  intro n
  induction n with
  | zero =>
    intro b
    constructor
    · intro hx
      simp [seqRange] at hx
    · intro hx
      exfalso
      omega
  | succ n ih =>
    intro b
    show x ∈ b :: seqRange (b + 1) n ↔ b ≤ x ∧ x < b + (n + 1)
    simp only [List.mem_cons, ih (b + 1)]
    omega

theorem seqRange_append (m : Nat) :
    ∀ b n, seqRange b m ++ seqRange (b + m) n = seqRange b (m + n) := by
  induction m with
  | zero => intro b n; simp [seqRange]
  | succ m ih =>
    intro b n
    show b :: (seqRange (b + 1) m ++ seqRange (b + (m + 1)) n) = seqRange b (m + 1 + n)
    have h1 : b + (m + 1) = (b + 1) + m := by omega
    rw [h1, ih (b + 1) n]
    have h2 : m + 1 + n = (m + n) + 1 := by omega
    rw [h2]
    rfl

theorem filter_eq_nil_of_false {p : Nat → Bool} :
    ∀ l : List Nat, (∀ x ∈ l, p x = false) → l.filter p = [] := by
  intro l
  induction l with
  | nil => intro _; rfl
  | cons x l ih =>
    intro h
    rw [List.filter_cons, if_neg (by simp [h x (List.mem_cons_self x l)])]
    exact ih fun y hy => h y (List.mem_cons_of_mem x hy)

theorem filter_eq_self_of_true {p : Nat → Bool} :
    ∀ l : List Nat, (∀ x ∈ l, p x = true) → l.filter p = l := by
  intro l
  induction l with
  | nil => intro _; rfl
  | cons x l ih =>
    intro h
    rw [List.filter_cons, if_pos (h x (List.mem_cons_self x l))]
    rw [ih fun y hy => h y (List.mem_cons_of_mem x hy)]

theorem dictLookup_append_some (k : Nat) (v : List Nat) (l : List (Nat × List Nat)) :
    ∀ d : List (Nat × List Nat), dictLookup k d = some v → dictLookup k (d ++ l) = some v := by
  intro d
  induction d with
  | nil => intro h; simp [dictLookup] at h
  | cons kv d ih =>
    intro h
    rw [List.cons_append]
    unfold dictLookup at h ⊢
    split_ifs at h ⊢ with h1
    · exact h
    · exact ih h

theorem dictLookup_append_fresh (k : Nat) (v : List Nat) :
    ∀ d : List (Nat × List Nat), (∀ kv ∈ d, kv.1 ≠ k) →
      dictLookup k (d ++ [(k, v)]) = some v := by
  intro d
  induction d with
  | nil => intro _; simp [dictLookup]
  | cons kv d ih =>
    intro h
    rw [List.cons_append]
    unfold dictLookup
    rw [if_neg (h kv (List.mem_cons_self kv d))]
    exact ih fun y hy => h y (List.mem_cons_of_mem kv hy)

theorem dictLookup_erase_ne (k a : Nat) (hka : k ≠ a) :
    ∀ d : List (Nat × List Nat), dictLookup k (dictErase a d) = dictLookup k d := by
  intro d
  induction d with
  | nil => rfl
  | cons kv d ih =>
    have hcons : ∀ rest : List (Nat × List Nat),
        dictLookup k (kv :: rest) = if kv.1 = k then some kv.2 else dictLookup k rest :=
      fun rest => rfl
    by_cases h : kv.1 = a
    · have hkk : ¬ kv.1 = k := fun hh => hka (hh.symm.trans h)
      unfold dictErase at ih ⊢
      rw [List.filter_cons, if_neg (by simp [h]), ih, hcons d, if_neg hkk]
    · unfold dictErase at ih ⊢
      rw [List.filter_cons, if_pos (by simp [h]), hcons, hcons, ih]

theorem filterMap_dictLookup_eq_map (payload : Nat → List Nat) (d : List (Nat × List Nat)) :
    ∀ l : List Nat, (∀ k ∈ l, dictLookup k d = some (originalPacket payload k)) →
      l.filterMap (fun k => dictLookup k d) = l.map (originalPacket payload) := by
  intro l
  induction l with
  | nil => intro _; rfl
  | cons x l ih =>
    intro h
    have h1 := h x (List.mem_cons_self x l)
    rw [List.map_cons, List.filterMap_cons, h1]
    rw [ih fun y hy => h y (List.mem_cons_of_mem x hy)]

theorem drainStep_cases (s : SState) (e : Ev) :
    ((drainStep s e).1.window = s.window ∧ (drainStep s e).1.dict = s.dict ∧
     (drainStep s e).1.phase = s.phase ∧ (drainStep s e).1.seq = s.seq ∧
     (drainStep s e).1.base = s.base ∧ (drainStep s e).1.fresh = s.fresh ∧
     (drainStep s e).1.acked = s.acked) ∨
    (∃ a, s.window.head? = some a ∧
     (drainStep s e).1 = { s with window := s.window.tail, dict := dictErase a s.dict,
                                  base := s.base + 1, acked := s.acked ++ [a] }) := by
  match e with
  | Ev.tmo => exact Or.inl ⟨rfl, rfl, rfl, rfl, rfl, rfl, rfl⟩
  | Ev.ackEv q a f =>
    by_cases hfl : f &&& ack_flag ≠ 0
    · by_cases hm : q = a ∧ s.window.head? = some a
      · refine Or.inr ⟨a, hm.2, ?_⟩
        simp only [drainStep]
        rw [if_pos hfl, if_pos hm]
      · refine Or.inl ?_
        simp only [drainStep]
        rw [if_pos hfl, if_neg hm]
        exact ⟨rfl, rfl, rfl, rfl, rfl, rfl, rfl⟩
    · refine Or.inl ?_
      simp only [drainStep]
      rw [if_neg hfl]
      exact ⟨rfl, rfl, rfl, rfl, rfl, rfl, rfl⟩

theorem nextSeq_eq_of_fields {t s : SState} (hph : t.phase = s.phase) (hsq : t.seq = s.seq) :
    nextSeq t = nextSeq s := by
  unfold nextSeq
  rw [hph, hsq]

theorem drainStep_pop (s : SState) (q a f : Nat) (hfl : f &&& ack_flag ≠ 0)
    (hq : q = a) (hhead : s.window.head? = some a) :
    drainStep s (Ev.ackEv q a f) = ({ s with
        window := s.window.tail,
        dict := dictErase a s.dict,
        base := s.base + 1,
        acked := s.acked ++ [a] }, []) := by
  simp only [drainStep]
  rw [if_pos hfl, if_pos ⟨hq, hhead⟩]

theorem wdInv_init (payload : Nat → List Nat) : WindowDictInv payload (initS payload) := by
  refine ⟨?_, ?_, ?_, ?_⟩
  · simp [initS]
  · intro k hk
    simp [initS] at hk
    simp [initS, nextSeq, hk]
  · intro kv hkv
    simp [initS] at hkv
    simp [initS, nextSeq, hkv]
  · intro k hk
    simp [initS] at hk
    subst hk
    rfl

theorem wdInv_chunk (W : Nat) (payload : Nat → List Nat) (s : SState)
    (hph : s.phase = Phase.ready) (h : WindowDictInv payload s) :
    WindowDictInv payload (chunkStep W payload s) := by
  obtain ⟨h1, h2, h3, h4⟩ := h
  have hns : nextSeq s = s.seq := by simp [nextSeq, hph]
  rw [hns] at h2 h3
  have hns2 : nextSeq (chunkStep W payload s) = s.seq + 1 := by
    simp [nextSeq, chunkStep]
  refine ⟨?_, ?_, ?_, ?_⟩
  · show (chunkStep W payload s).window.Pairwise (· < ·)
    simp only [chunkStep]
    split_ifs with hlen
    · rw [List.pairwise_append]
      refine ⟨h1, by simp, ?_⟩
      intro x hx y hy
      simp at hy
      subst hy
      exact h2 x hx
    · exact h1
  · intro k hk
    rw [hns2]
    simp only [chunkStep] at hk
    split_ifs at hk with hlen
    · rcases List.mem_append.mp hk with hk | hk
      · have := h2 k hk; omega
      · simp at hk; omega
    · have := h2 k hk; omega
  · intro kv hkv
    rw [hns2]
    simp only [chunkStep] at hkv
    rcases List.mem_append.mp hkv with hkv | hkv
    · have := h3 kv hkv; omega
    · simp at hkv
      subst hkv
      show s.seq < s.seq + 1
      omega
  · intro k hk
    simp only [chunkStep] at hk ⊢
    split_ifs at hk with hlen
    · rcases List.mem_append.mp hk with hk | hk
      · exact dictLookup_append_some k _ _ s.dict (h4 k hk)
      · simp at hk
        subst hk
        exact dictLookup_append_fresh s.seq _ s.dict fun kv hkv => by
          have := h3 kv hkv; omega
    · exact dictLookup_append_some k _ _ s.dict (h4 k hk)

theorem wdInv_drain (payload : Nat → List Nat) (s : SState) (e : Ev)
    (h : WindowDictInv payload s) : WindowDictInv payload (drainStep s e).1 := by
  obtain ⟨h1, h2, h3, h4⟩ := h
  rcases drainStep_cases s e with ⟨e1, e2, e3, e4, e5, e6, e7⟩ | ⟨a, hhead, heq⟩
  · have hnt : nextSeq (drainStep s e).1 = nextSeq s := nextSeq_eq_of_fields e3 e4
    refine ⟨?_, ?_, ?_, ?_⟩
    · rw [e1]; exact h1
    · intro k hk; rw [e1] at hk; rw [hnt]; exact h2 k hk
    · intro kv hkv; rw [e2] at hkv; rw [hnt]; exact h3 kv hkv
    · intro k hk; rw [e1] at hk; rw [e2]; exact h4 k hk
  · rcases hw : s.window with _ | ⟨x, t⟩
    · rw [hw] at hhead; simp at hhead
    · rw [hw] at hhead
      simp only [List.head?_cons, Option.some.injEq] at hhead
      subst hhead
      rw [hw] at h1 h2 h4
      have hpc := List.pairwise_cons.mp h1
      rw [heq]
      refine ⟨?_, ?_, ?_, ?_⟩
      · show (s.window.tail).Pairwise (· < ·)
        rw [hw]
        exact hpc.2
      · intro k hk
        have hk2 : k ∈ s.window.tail := hk
        rw [hw] at hk2
        show k < nextSeq s
        exact h2 k (List.mem_cons_of_mem x hk2)
      · intro kv hkv
        have hkv2 : kv ∈ dictErase x s.dict := hkv
        have hkv3 : kv ∈ s.dict := by
          unfold dictErase at hkv2
          exact (List.mem_filter.mp hkv2).1
        show kv.1 < nextSeq s
        exact h3 kv hkv3
      · intro k hk
        have hk2 : k ∈ s.window.tail := hk
        rw [hw] at hk2
        have hka : k ≠ x := by
          have := hpc.1 k hk2
          omega
        show dictLookup k (dictErase x s.dict) = some (originalPacket payload k)
        rw [dictLookup_erase_ne k x hka s.dict]
        exact h4 k (List.mem_cons_of_mem x hk2)

theorem wdInv_exit (payload : Nat → List Nat) (s : SState)
    (hph : s.phase = Phase.draining) (h : WindowDictInv payload s) :
    WindowDictInv payload (exitDrain s) := by
  obtain ⟨h1, h2, h3, h4⟩ := h
  have hns : nextSeq s = s.seq + 1 := by simp [nextSeq, hph]
  have hns2 : nextSeq (exitDrain s) = s.seq + 1 := by simp [nextSeq, exitDrain]
  refine ⟨h1, ?_, ?_, h4⟩
  · intro k hk
    have hh := h2 k hk
    rw [hns] at hh
    rw [hns2]
    exact hh
  · intro kv hkv
    have hh := h3 kv hkv
    rw [hns] at hh
    rw [hns2]
    exact hh

theorem reachable_wdInv {W last : Nat} {payload : Nat → List Nat} {s : SState}
    (h : Reachable W last payload s) : WindowDictInv payload s := by
  induction h with
  | init => exact wdInv_init payload
  | chunk hr hph hseq ih => exact wdInv_chunk _ _ _ hph ih
  | drain e hr hph hc ih => exact wdInv_drain _ _ e ih
  | exitStep hr hph hc ih => exact wdInv_exit _ _ hph ih

theorem ghost_init (W : Nat) (hW : 2 ≤ W) (payload : Nat → List Nat) :
    GhostInv W (initS payload) := by
  refine ⟨le_refl 1, by show (1 : Nat) ≤ 2; omega, rfl, ?_, ?_, rfl, rfl⟩
  · show 2 - 1 ≤ W
    omega
  · intro _
    show 2 - 1 < W
    omega

theorem ghost_chunk (W : Nat) (hW : 2 ≤ W) (payload : Nat → List Nat) (s : SState)
    (hph : s.phase = Phase.ready) (h : GhostInv W s) :
    GhostInv W (chunkStep W payload s) := by
  obtain ⟨g1, g2, g3, g4, g5, g6, g7⟩ := h
  have hns : nextSeq s = s.seq := by simp [nextSeq, hph]
  rw [hns] at g2 g3 g4 g6
  have hlt : s.seq - s.base < W := by
    have hh := g5 hph
    rw [hns] at hh
    exact hh
  have hlen : s.window.length = s.seq - s.base := by rw [g3, seqRange_length]
  have hns2 : nextSeq (chunkStep W payload s) = s.seq + 1 := by
    simp [nextSeq, chunkStep]
  have hwin : (chunkStep W payload s).window = s.window ++ [s.seq] := by
    simp only [chunkStep]
    rw [if_pos (by omega)]
  refine ⟨g1, ?_, ?_, ?_, ?_, ?_, g7⟩
  · show s.base ≤ s.seq + 1
    omega
  · show (chunkStep W payload s).window = seqRange s.base (s.seq + 1 - s.base)
    have hb : s.base + (s.seq - s.base) = s.seq := by omega
    have hc2 : s.seq + 1 - s.base = (s.seq - s.base) + 1 := by omega
    rw [hwin, g3, hc2, seqRange_concat, hb]
  · show s.seq + 1 - s.base ≤ W
    omega
  · intro hph2
    have h9 : Phase.draining = Phase.ready := hph2
    simp at h9
  · show s.fresh ++ [s.seq] = seqRange 1 (s.seq + 1 - 1)
    rw [g6]
    have h1 : s.seq + 1 - 1 = (s.seq - 1) + 1 := by omega
    have h2 : 1 + (s.seq - 1) = s.seq := by omega
    rw [h1, seqRange_concat, h2]

theorem ghost_drain (W : Nat) (s : SState) (e : Ev)
    (hph : s.phase = Phase.draining) (h : GhostInv W s) :
    GhostInv W (drainStep s e).1 := by
  obtain ⟨g1, g2, g3, g4, g5, g6, g7⟩ := h
  rcases drainStep_cases s e with ⟨e1, e2, e3, e4, e5, e6, e7⟩ | ⟨a, hhead, heq⟩
  · have hnt : nextSeq (drainStep s e).1 = nextSeq s := nextSeq_eq_of_fields e3 e4
    refine ⟨?_, ?_, ?_, ?_, ?_, ?_, ?_⟩
    · rw [e5]; exact g1
    · rw [e5, hnt]; exact g2
    · rw [e1, hnt, e5]; exact g3
    · rw [hnt, e5]; exact g4
    · intro hp2
      rw [e3] at hp2
      rw [hnt, e5]
      exact g5 hp2
    · rw [e6, hnt]; exact g6
    · rw [e7, e5]; exact g7
  · have hm0 : nextSeq s - s.base ≠ 0 := by
      intro h0
      rw [g3, h0] at hhead
      simp [seqRange] at hhead
    have hab : a = s.base := by
      rcases hn : nextSeq s - s.base with _ | m
      · exact absurd hn hm0
      · rw [g3, hn] at hhead
        have hx : (seqRange s.base (m + 1)).head? = some s.base := rfl
        rw [hx] at hhead
        simp at hhead
        omega
    subst hab
    rw [heq]
    refine ⟨?_, ?_, ?_, ?_, ?_, ?_, ?_⟩
    · show 1 ≤ s.base + 1
      omega
    · show s.base + 1 ≤ nextSeq s
      omega
    · show s.window.tail = seqRange (s.base + 1) (nextSeq s - (s.base + 1))
      rw [g3]
      rcases hn : nextSeq s - s.base with _ | m
      · exact absurd hn hm0
      · have h2 : nextSeq s - (s.base + 1) = m := by omega
        rw [h2]
        rfl
    · show nextSeq s - (s.base + 1) ≤ W
      omega
    · intro hp2
      have h9 : s.phase = Phase.ready := hp2
      rw [hph] at h9
      simp at h9
    · show s.fresh = seqRange 1 (nextSeq s - 1)
      exact g6
    · show s.acked ++ [s.base] = seqRange 1 ((s.base + 1) - 1)
      rw [g7]
      have h1 : (s.base + 1) - 1 = (s.base - 1) + 1 := by omega
      have h2 : 1 + (s.base - 1) = s.base := by omega
      rw [h1, seqRange_concat, h2]

theorem ghost_exit (W last : Nat) (s : SState)
    (hph : s.phase = Phase.draining) (hc : drainCond W last s = false) (h : GhostInv W s) :
    GhostInv W (exitDrain s) := by
  obtain ⟨g1, g2, g3, g4, g5, g6, g7⟩ := h
  have hns : nextSeq s = s.seq + 1 := by simp [nextSeq, hph]
  have hns2 : nextSeq (exitDrain s) = s.seq + 1 := by simp [nextSeq, exitDrain]
  have hlen : s.window.length = nextSeq s - s.base := by rw [g3, seqRange_length]
  have hcw : s.window.length ≠ W := by
    simp only [drainCond, Bool.or_eq_false_iff, beq_eq_false_iff_ne] at hc
    exact hc.1
  rw [hns] at g2 g3 g4 hlen
  refine ⟨g1, ?_, ?_, ?_, ?_, ?_, g7⟩
  · rw [hns2]; exact g2
  · rw [hns2]; exact g3
  · rw [hns2]; exact g4
  · intro _
    show s.seq + 1 - s.base < W
    omega
  · rw [hns2]
    rw [hns] at g6
    exact g6

theorem reachable_ghost {W last : Nat} {payload : Nat → List Nat} {s : SState}
    (hW : 2 ≤ W) (h : Reachable W last payload s) : GhostInv W s := by
  induction h with
  | init => exact ghost_init W hW payload
  | chunk hr hph hseq ih => exact ghost_chunk W hW payload _ hph ih
  | drain e hr hph hc ih => exact ghost_drain W _ e hph ih
  | exitStep hr hph hc ih => exact ghost_exit W _ _ hph hc ih

/-- Claim C10: in every reachable state of the sender's data-transfer loop,
every sequence number in the sliding window is a key of the packet store and
maps to the exact bytes originally packed and transmitted for it, so the
retransmission loop's per-entry lookup always succeeds (the filterMap drops
nothing). -/
theorem c10_packet_store (W last : Nat) (payload : Nat → List Nat) (s : SState)
    (h : Reachable W last payload s) :
    (∀ k ∈ s.window, dictLookup k s.dict = some (originalPacket payload k)) ∧
    s.window.filterMap (fun k => dictLookup k s.dict) =
      s.window.map (originalPacket payload) := by
  have hi := reachable_wdInv h
  exact ⟨hi.2.2.2, filterMap_dictLookup_eq_map payload s.dict s.window hi.2.2.2⟩

theorem c10_packet_store_witness :
    (∀ k ∈ sentW1.window, dictLookup k sentW1.dict = some (originalPacket pay3 k)) ∧
    sentW1.window.filterMap (fun k => dictLookup k sentW1.dict) =
      sentW1.window.map (originalPacket pay3) :=
  c10_packet_store 1 3 pay3 sentW1 (Reachable.chunk Reachable.init rfl (by decide))

/-- Claim C2: on a timeout of the 500 ms wait, or on an ACK-flagged datagram
whose carried sequence and acknowledgment numbers do not both equal the
window's head, the sender retransmits every segment currently in the window,
in window order, each reusing the exact originally packed bytes for its
sequence number (never repacking), and the window itself is unchanged. -/
theorem c2_gbn_retransmit (W last : Nat) (payload : Nat → List Nat) (s : SState) (e : Ev)
    (h : Reachable W last payload s) (hph : s.phase = Phase.draining)
    (hc : drainCond W last s = true)
    (he : e = Ev.tmo ∨ ∃ q a f, e = Ev.ackEv q a f ∧ f &&& ack_flag ≠ 0 ∧
      ¬(q = a ∧ s.window.head? = some a)) :
    (drainStep s e).2 = s.window.map (originalPacket payload) ∧
    (drainStep s e).1.window = s.window := by
  have hi := reachable_wdInv h
  have hmap := filterMap_dictLookup_eq_map payload s.dict s.window hi.2.2.2
  rcases he with rfl | ⟨q, a, f, rfl, hfl, hnm⟩
  · exact ⟨hmap, rfl⟩
  · simp only [drainStep]
    rw [if_pos hfl, if_neg hnm]
    exact ⟨hmap, rfl⟩

theorem c2_gbn_retransmit_witness :
    (drainStep sentW1 Ev.tmo).2 = sentW1.window.map (originalPacket pay3) ∧
    (drainStep sentW1 Ev.tmo).1.window = sentW1.window :=
  c2_gbn_retransmit 1 3 pay3 sentW1 Ev.tmo
    (Reachable.chunk Reachable.init rfl (by decide)) rfl (by decide) (Or.inl rfl)

/-- Claim C3 counterexample: for window size W = 1 the claim fails at a
reachable state — right after the first chunk (sequence 2) is transmitted,
the window is still [1] (the append is guarded by window fullness but the
transmission is not), so sequence 2 has been sent fresh, is unacknowledged,
yet is missing from the window: the window does not equal the set of fresh,
not-yet-acknowledged sequence numbers. -/
theorem c3_counterexample :
    Reachable 1 3 pay3 sentW1 ∧
    sentW1.window = [1] ∧
    sentW1.fresh = [1, 2] ∧
    sentW1.acked = [] ∧
    sentW1.window ≠ sentW1.fresh.filter (fun k => decide (k ∉ sentW1.acked)) := by
  refine ⟨Reachable.chunk Reachable.init rfl (by decide), rfl, rfl, rfl, by decide⟩

/-- Claim C3 amended: for every window size W of at least 2, at every
reachable state of the data-transfer loop the window has length at most W and
is exactly the contiguous increasing range of the fresh, not-yet-acknowledged
sequence numbers starting at the oldest one (base) at its head, and an
acknowledgment matching the head removes exactly one element.  For W = 1 the
name segment still fills the window when the first chunk is sent, so the
window can omit an in-flight unacknowledged sequence number. -/
theorem c3_amended (W last : Nat) (payload : Nat → List Nat) (s : SState) (a f : Nat)
    (hW : 2 ≤ W) (h : Reachable W last payload s) :
    s.window.length ≤ W ∧
    s.window = s.fresh.filter (fun k => decide (k ∉ s.acked)) ∧
    s.window = seqRange s.base s.window.length ∧
    (s.window ≠ [] → s.window.head? = some s.base) ∧
    (f &&& ack_flag ≠ 0 → s.window.head? = some a →
      (drainStep s (Ev.ackEv a a f)).1.window = s.window.tail ∧
      (drainStep s (Ev.ackEv a a f)).1.window.length + 1 = s.window.length) := by
  obtain ⟨g1, g2, g3, g4, g5, g6, g7⟩ := reachable_ghost hW h
  have hlen : s.window.length = nextSeq s - s.base := by rw [g3, seqRange_length]
  refine ⟨by omega, ?_, ?_, ?_, ?_⟩
  · rw [g6, g7, g3]
    have h1 : 1 + (s.base - 1) = s.base := by omega
    have h2 : (s.base - 1) + (nextSeq s - s.base) = nextSeq s - 1 := by omega
    have h3 := seqRange_append (s.base - 1) 1 (nextSeq s - s.base)
    rw [h1, h2] at h3
    have hnil : (seqRange 1 (s.base - 1)).filter
        (fun k => decide (k ∉ seqRange 1 (s.base - 1))) = [] := by
      apply filter_eq_nil_of_false
      intro x hx
      simp only [decide_eq_false_iff_not, not_not]
      exact hx
    have hself : (seqRange s.base (nextSeq s - s.base)).filter
        (fun k => decide (k ∉ seqRange 1 (s.base - 1))) =
        seqRange s.base (nextSeq s - s.base) := by
      apply filter_eq_self_of_true
      intro x hx
      have hxm := (mem_seqRange x (nextSeq s - s.base) s.base).mp hx
      simp only [decide_eq_true_eq]
      intro hxmem
      have hxm2 := (mem_seqRange x (s.base - 1) 1).mp hxmem
      omega
    rw [← h3, List.filter_append, hnil, hself]
    simp
  · rw [hlen]
    exact g3
  · intro hne
    rcases hn : nextSeq s - s.base with _ | m
    · rw [g3, hn] at hne
      simp [seqRange] at hne
    · rw [g3, hn]
      rfl
  · intro hfl hhead
    have hpop := drainStep_pop s a a f hfl rfl hhead
    constructor
    · rw [hpop]
    · rw [hpop]
      show s.window.tail.length + 1 = s.window.length
      rcases hwc : s.window with _ | ⟨x, t⟩
      · rw [hwc] at hhead; simp at hhead
      · simp

theorem c3_amended_witness :
    (initS pay3).window.length ≤ 2 ∧
    (initS pay3).window =
      (initS pay3).fresh.filter (fun k => decide (k ∉ (initS pay3).acked)) ∧
    (initS pay3).window = seqRange (initS pay3).base (initS pay3).window.length ∧
    ((initS pay3).window ≠ [] → (initS pay3).window.head? = some (initS pay3).base) ∧
    (4 &&& ack_flag ≠ 0 → (initS pay3).window.head? = some 1 →
      (drainStep (initS pay3) (Ev.ackEv 1 1 4)).1.window = (initS pay3).window.tail ∧
      (drainStep (initS pay3) (Ev.ackEv 1 1 4)).1.window.length + 1 =
        (initS pay3).window.length) :=
  c3_amended 2 3 pay3 (initS pay3) 1 4 (by omega) Reachable.init

/-- Claim C5 counterexample: in the closed-loop lossless run with window size
1 and the 3-chunk file (simA), the sender emits 5 data-bearing transmissions,
not 4, and the segment with sequence 3 is transmitted twice — a
retransmission occurs even though nothing was lost, because the
acknowledgment for sequence 2 (which never entered the full window) arrives
while the window head is 3 and is treated as a mismatch. -/
theorem c5_counterexample :
    simA.1.log.length = 5 ∧
    simA.1.log.length ≠ 4 ∧
    simA.1.log.count (originalPacket pay3 3) = 2 ∧
    simA.1.seq = 5 ∧
    simA.1.window = [] := by
  refine ⟨rfl, by decide, rfl, rfl, rfl⟩

/-- Claim C5 amended: with window size 1, a lossless channel and a 3-chunk
file, the sender emits exactly 5 data-bearing transmissions — the name
segment, the three chunk segments in order, plus one retransmission of the
sequence-3 segment — because the second segment is sent before the name
segment's acknowledgment is processed and its own acknowledgment then
mismatches the window head; the transfer still completes with the data loop
drained and the receiver's output equal to the source chunks. -/
theorem c5_amended :
    simA.1.log = [originalPacket pay3 1, originalPacket pay3 2, originalPacket pay3 3,
      originalPacket pay3 3, originalPacket pay3 4] ∧
    simA.2.out = [10, 20, 30] ∧
    simA.2.ack = 5 ∧
    simA.2.acksSent = [(1, 1), (2, 2), (3, 3), (4, 4)] ∧
    simA.1.window = [] ∧
    simA.1.seq = 5 := by
  exact ⟨rfl, rfl, rfl, rfl, rfl, rfl⟩

/-- Claim C7: the sender attempts the handshake exactly once — it sends a
single SYN, and on a 500 ms timeout or a connection reset it aborts the
whole transfer fatally: the connection is not established, no data segment
is sent, and the SYN is never resent. -/
theorem c7_handshake_once (e : HsEvent) (he : e = HsEvent.tmo ∨ e = HsEvent.reset)
    (W last : Nat) (payload : Nat → List Nat) (fuel : Nat) :
    sendFileSegs e W last payload fuel = [synPkt] ∧
    (senderHandshake e).2 = false ∧
    (sendFileSegs e W last payload fuel).count synPkt = 1 := by
  rcases he with rfl | rfl
  · exact ⟨rfl, rfl, rfl⟩
  · exact ⟨rfl, rfl, rfl⟩

theorem c7_handshake_once_witness :
    sendFileSegs HsEvent.tmo 1 3 pay3 5 = [synPkt] ∧
    (senderHandshake HsEvent.tmo).2 = false ∧
    (sendFileSegs HsEvent.tmo 1 3 pay3 5).count synPkt = 1 :=
  c7_handshake_once HsEvent.tmo (Or.inl rfl) 1 3 pay3 5

theorem teardown_tmo (n : Nat) :
    ∀ fins, teardownRun fins (List.replicate n TdEv.tmo) = (fins + n + 1, false) := by
  induction n with
  | zero => intro fins; rfl
  | succ n ih =>
    intro fins
    rw [List.replicate_succ]
    show teardownRun (fins + 1) (List.replicate n TdEv.tmo) = (fins + (n + 1) + 1, false)
    rw [ih (fins + 1)]
    have hadd : fins + 1 + n + 1 = fins + (n + 1) + 1 := by omega
    rw [hadd]

theorem teardown_tmo_fin (n : Nat) (f : Nat)
    (hf : f &&& fin_flag ≠ 0 ∧ f &&& ack_flag ≠ 0) :
    ∀ fins, teardownRun fins (List.replicate n TdEv.tmo ++ [TdEv.pkt f]) =
      (fins + n + 1, true) := by
  induction n with
  | zero =>
    intro fins
    show (if f &&& fin_flag ≠ 0 ∧ f &&& ack_flag ≠ 0 then (fins + 1, true)
      else teardownRun (fins + 1) []) = (fins + 0 + 1, true)
    rw [if_pos hf]
  | succ n ih =>
    intro fins
    rw [List.replicate_succ, List.cons_append]
    show teardownRun (fins + 1) (List.replicate n TdEv.tmo ++ [TdEv.pkt f]) =
      (fins + (n + 1) + 1, true)
    rw [ih (fins + 1)]
    have hadd : fins + 1 + n + 1 = fins + (n + 1) + 1 := by omega
    rw [hadd]

/-- Claim C8 counterexample: when the receiver's single FIN+ACK (its answer to
the first FIN) is lost, the receiver — already past its data loop — never
answers again, so every subsequent wait of the sender times out.  After two
timeouts the sender has transmitted 3 FINs and is still not closed, refuting
the claim that it resends exactly one additional FIN (2 in total) and then
closes. -/
theorem c8_counterexample :
    teardownRun 0 [TdEv.tmo, TdEv.tmo] = (3, false) ∧
    teardownRun 0 [TdEv.tmo, TdEv.tmo] ≠ (2, true) := by
  exact ⟨rfl, by decide⟩

/-- Claim C8 amended: the receiver sends exactly one FIN+ACK (no retry) after
exiting its data loop; the sender, however, resends a FIN on every 500 ms
timeout and closes only upon receiving a segment with both FIN and ACK flags
set — so if the single FIN+ACK is lost, no reply ever arrives and the sender
resends FIN indefinitely without closing (n timeouts yield n + 1 FIN
transmissions, still open), rather than closing after one resend. -/
theorem c8_amended (n : Nat) (d : Option Nat) (gs : List Seg) (f : Nat)
    (hf : f &&& fin_flag ≠ 0 ∧ f &&& ack_flag ≠ 0) :
    receiverFinAcks d gs ≤ 1 ∧
    ((recvRun (initR d) gs).fin = true → receiverFinAcks d gs = 1) ∧
    teardownRun 0 (List.replicate n TdEv.tmo) = (n + 1, false) ∧
    teardownRun 0 (List.replicate n TdEv.tmo ++ [TdEv.pkt f]) = (n + 1, true) := by
  refine ⟨?_, ?_, ?_, ?_⟩
  · unfold receiverFinAcks
    split_ifs <;> omega
  · intro hfin
    unfold receiverFinAcks
    rw [if_pos hfin]
  · have hh := teardown_tmo n 0
    simpa using hh
  · have hh := teardown_tmo_fin n f hf 0
    simpa using hh

theorem c8_amended_witness :
    receiverFinAcks none [⟨0, fin_flag, []⟩] ≤ 1 ∧
    ((recvRun (initR none) [⟨0, fin_flag, []⟩]).fin = true →
      receiverFinAcks none [⟨0, fin_flag, []⟩] = 1) ∧
    teardownRun 0 (List.replicate 1 TdEv.tmo) = (1 + 1, false) ∧
    teardownRun 0 (List.replicate 1 TdEv.tmo ++ [TdEv.pkt 6]) = (1 + 1, true) :=
  c8_amended 1 none [⟨0, fin_flag, []⟩] 6 (by decide)

theorem c9_discard_once_witness :
    recvStep c9wS c9wG = { c9wS with discard := none, discarded := c9wS.discarded + 1 } ∧
    (recvStep c9wS c9wG).acksSent = c9wS.acksSent ∧
    (recvStep c9wS c9wG).out = c9wS.out ∧
    (recvStep c9wS c9wG).ack = c9wS.ack ∧
    (recvStep c9wS c9wG).discard = none ∧
    (∀ t : RState, t.discard = none → ∀ g2,
      (recvStep t g2).discard = none ∧ (recvStep t g2).discarded = t.discarded) ∧
    (∀ d gs, (recvRun (initR d) gs).discarded ≤ 1) :=
  c9_discard_once c9wS c9wG rfl (by decide)

end DRTP
